import Mathlib

/-!
Verification development for the jellycli protocol-translation gateway.

The definitions below are a shallow embedding of the Rust sources:
`src/utils/thinking_config.rs`, `src/models/openai.rs`, `src/models/gemini.rs`,
`src/auth/credentials.rs`, `src/client/gemini.rs` and `src/client/service.rs`.
Strings are modelled by Lean `String` (operating on their character data),
machine integers by `Nat`/`Int`, JSON documents by an explicit inductive type,
filesystem and network effects by explicit oracle parameters, and the
credential manager's mutable state by explicit state passing.
-/

/-! ## String utilities mirroring Rust `str` operations -/

/-- Rust `str::contains(pat)`: `pat` occurs as a contiguous substring. -/
def listContainsSub (hay pat : List Char) : Bool :=
  if pat.isPrefixOf hay then true
  else match hay with
    | [] => false
    | _ :: t => listContainsSub t pat

/-- Rust `str::contains` on `String`s. -/
def strContains (s pat : String) : Bool :=
  listContainsSub s.data pat.data

/-- Rust `str::ends_with` on `String`s. -/
def strEndsWith (s pat : String) : Bool :=
  pat.data.isSuffixOf s.data

/-- Rust `str::strip_suffix`: remove `pat` from the end when it is a suffix. -/
def stripSuffixStr (s pat : String) : Option String :=
  if pat.data.isSuffixOf s.data then
    some (String.mk (s.data.take (s.data.length - pat.data.length)))
  else none

/-- Unicode `White_Space` property, the set used by Rust `char::is_whitespace`. -/
def isRustWhitespace (c : Char) : Bool :=
  let n := c.toNat
  (9 ≤ n && n ≤ 13) || n = 32 || n = 0x85 || n = 0xA0 || n = 0x1680 ||
  (0x2000 ≤ n && n ≤ 0x200A) || n = 0x2028 || n = 0x2029 || n = 0x202F ||
  n = 0x205F || n = 0x3000

/-- Rust `str::trim` on character lists: drop whitespace from both ends. -/
def rustTrimList (s : List Char) : List Char :=
  ((s.dropWhile isRustWhitespace).reverse.dropWhile isRustWhitespace).reverse

/-- Rust `str::trim` on `String`s. -/
def rustTrim (s : String) : String :=
  String.mk (rustTrimList s.data)

/-! ## A model of JSON documents (`serde_json::Value`) -/

/-- JSON values; numbers are modelled as integers (no claim inspects
fractional numbers). -/
inductive JsonValue where
  | null : JsonValue
  | bool (b : Bool) : JsonValue
  | num (n : Int) : JsonValue
  | str (s : String) : JsonValue
  | arr (elems : List JsonValue) : JsonValue
  | obj (fields : List (String × JsonValue)) : JsonValue

/-- `serde_json::Value::as_str`: the payload when the value is a string. -/
def jsonAsStr : JsonValue → Option String
  | .str s => some s
  | _ => none

/-- `serde_json::Value::get(key)`: first field with the key, on objects only. -/
def jsonGet (v : JsonValue) (key : String) : Option JsonValue :=
  match v with
  | .obj fields => lookupField fields
  | _ => none
where lookupField : List (String × JsonValue) → Option JsonValue
  | [] => none
  | (k, w) :: rest => if k = key then some w else lookupField rest

/-! ## `src/utils/thinking_config.rs` -/

/-- `GeminiThinkingConfig` from `src/models/gemini.rs`. -/
structure GeminiThinkingConfigM where
  thinkingBudget : Int
  includeThoughts : Bool
deriving DecidableEq

/-- `get_base_model_name`: strip the first matching suffix among
`-maxthinking`, `-nothinking`. -/
def getBaseModelName (m : String) : String :=
  match stripSuffixStr m "-maxthinking" with
  | some b => b
  | none =>
    match stripSuffixStr m "-nothinking" with
    | some b => b
    | none => m

/-- `is_nothinking_model`: the name contains `-nothinking`. -/
def isNothinkingModel (m : String) : Bool :=
  strContains m "-nothinking"

/-- `is_maxthinking_model`: the name contains `-maxthinking`. -/
def isMaxthinkingModel (m : String) : Bool :=
  strContains m "-maxthinking"

/-- `get_thinking_budget`. -/
def getThinkingBudget (m : String) : Option Int :=
  if isNothinkingModel m then some 128
  else if isMaxthinkingModel m then some 32768
  else some (-1)

/-- `should_include_thoughts`. -/
def shouldIncludeThoughts (m : String) : Bool :=
  if isNothinkingModel m then strContains (getBaseModelName m) "gemini-2.5-pro"
  else true

/-- `is_image_model`: the name contains `gemini-2.5-flash-image`. -/
def isImageModel (m : String) : Bool :=
  strContains m "gemini-2.5-flash-image"

/-- `get_thinking_config`. -/
def getThinkingConfig (m : String) : Option GeminiThinkingConfigM :=
  if isImageModel m then none
  else
    match getThinkingBudget m with
    | some b => some ⟨b, shouldIncludeThoughts m⟩
    | none => none

/-! ## `src/models/openai.rs` -/

/-- `OpenAIChatMessage`: role, JSON content, optional reasoning channel. -/
structure OpenAIChatMessageM where
  role : String
  content : JsonValue
  reasoningContent : Option String

/-- `OpenAIChatCompletionRequest`, restricted to the fields read or written
by the operations under verification (`model`, `messages`, `stream`,
`max_tokens`); the remaining fields are forwarded untouched by those
operations. -/
structure OpenAIChatCompletionRequestM where
  model : String
  messages : List OpenAIChatMessageM
  stream : Bool
  maxTokens : Option Nat

/-- `str::replace(pat, "")` — delete every occurrence of `pat`, scanning left
to right.  `fuel` is the structural recursion budget; it is always called
with `fuel = hay.length`, which suffices because each step consumes at least
one character of `hay`. -/
def removeAllSubAux (pat : List Char) : Nat → List Char → List Char
  | 0, hay => hay
  | fuel + 1, hay =>
    if pat ≠ [] ∧ pat.isPrefixOf hay then
      removeAllSubAux pat fuel (hay.drop pat.length)
    else
      match hay with
      | [] => []
      | c :: t => c :: removeAllSubAux pat fuel t

/-- Rust `str::replace(pat, "")` on `String`s. -/
def removeAllSub (s pat : String) : String :=
  String.mk (removeAllSubAux pat.data s.data.length s.data)

/-- `OpenAIChatCompletionRequest::get_real_model`: strip every occurrence of
the fake-streaming marker when the model name ends with it. -/
def getRealModel (r : OpenAIChatCompletionRequestM) : String :=
  if strEndsWith r.model "-假流式" then removeAllSub r.model "-假流式"
  else r.model

/-- `OpenAIChatCompletionRequest::is_fake_streaming`. -/
def isFakeStreaming (r : OpenAIChatCompletionRequestM) : Bool :=
  strEndsWith r.model "-假流式" && r.stream

/-- `OpenAIChatCompletionRequest::is_health_check`: exactly one message, role
`user`, string content exactly `Hi`. -/
def isHealthCheck (r : OpenAIChatCompletionRequestM) : Bool :=
  match r.messages with
  | [m] => m.role == "user" && jsonAsStr m.content == some "Hi"
  | _ => false

/-- The retention test of `filter_empty_messages`: keep a message unless its
content is a JSON string whose trimmed form is empty. -/
def keepMessage (m : OpenAIChatMessageM) : Bool :=
  match jsonAsStr m.content with
  | some s => !(rustTrim s).isEmpty
  | none => true

/-- `OpenAIChatCompletionRequest::filter_empty_messages`. -/
def filterEmptyMessages (r : OpenAIChatCompletionRequestM) :
    OpenAIChatCompletionRequestM :=
  { r with messages := r.messages.filter keepMessage }

/-- `OpenAIChatCompletionRequest::limit_max_tokens`: clamp to 65535. -/
def limitMaxTokens (r : OpenAIChatCompletionRequestM) :
    OpenAIChatCompletionRequestM :=
  match r.maxTokens with
  | some t => if t > 65535 then { r with maxTokens := some 65535 } else r
  | none => r

/-! ## `src/auth/credentials.rs` — the credential manager

Filesystem reads are modelled by oracles: `dir` is the listing of the
credentials directory, and a `load` function gives the outcome of
`load_credentials_from_file` for each file (deterministic within one call,
matching a filesystem that does not change mid-request).  The abstract type
`β` stands for the `(GoogleCredentials, Option<String>)` payload pair. -/

/-- Outcome of `load_credentials_from_file` for one file: `ok` is
`Ok(Some(..))`, `bad` is `Ok(None)` (parsed file with an empty refresh
token), `err` is `Err(..)` (read or parse failure). -/
inductive LoadOutcome (β : Type) where
  | ok (c : β) : LoadOutcome β
  | bad : LoadOutcome β
  | err : LoadOutcome β

/-- Whether a load outcome is `Ok(Some(..))`. -/
def LoadOutcome.isOk {β : Type} : LoadOutcome β → Bool
  | .ok _ => true
  | _ => false

/-- `CredentialState`: persisted per-credential health state.  Timestamps are
abstract `Nat`s. -/
structure CredentialStateM where
  errorCodes : List Nat
  disabled : Bool
  lastSuccess : Option Nat
deriving DecidableEq

/-- The default `CredentialState` (Rust `Default`). -/
def defaultCredState : CredentialStateM := ⟨[], false, none⟩

/-- The `CredentialManager` state.  `states` is the state map with
`or_default` lookup semantics; `persisted` mirrors the last contents written
to the on-disk state file by `save_states`. -/
structure ManagerM where
  dir : List String
  states : String → CredentialStateM
  persisted : String → CredentialStateM
  files : List String
  currentIndex : Nat
  callsPerRotation : Nat
  callCount : Nat
  maxRetries : Nat

/-- Rust `Path::extension`: the part after the final dot of the file name,
absent when there is no dot or the only dot starts the name. -/
def rustExtension (s : String) : Option String :=
  let rev := s.data.reverse
  let ext := rev.takeWhile (fun c => c ≠ '.')
  if ext.length = rev.length then none
  else if s.data.length - ext.length - 1 = 0 then none
  else some (String.mk ext.reverse)

/-- The extension filter of `discover_credential_files`. -/
def hasJsonExt (s : String) : Bool :=
  rustExtension s == some "json"

/-- `is_credential_disabled` (map lookup with `false` default). -/
def isCredentialDisabled (states : String → CredentialStateM)
    (filename : String) : Bool :=
  (states filename).disabled

/-- `discover_credential_files`: keep `.json` files that are not disabled,
then sort lexicographically. -/
def discoverCredentialFiles (dir : List String)
    (states : String → CredentialStateM) : List String :=
  List.insertionSort (· ≤ ·)
    (dir.filter fun f => hasJsonExt f && !isCredentialDisabled states f)

/-- Point update of the state map (`HashMap::insert` via `entry or_default`). -/
def updateState (states : String → CredentialStateM) (name : String)
    (s : CredentialStateM) : String → CredentialStateM :=
  fun f => if f = name then s else states f

/-- `record_error`: idempotently append the status code, then `save_states`. -/
def recordError (st : ManagerM) (name : String) (code : Nat) : ManagerM :=
  let s := st.states name
  let s' := if code ∈ s.errorCodes then s
            else { s with errorCodes := s.errorCodes ++ [code] }
  let states' := updateState st.states name s'
  { st with states := states', persisted := states' }

/-- `record_success`: clear the error set, stamp `last_success := now`, then
`save_states`. -/
def recordSuccess (st : ManagerM) (name : String) (now : Nat) : ManagerM :=
  let s := st.states name
  let s' := { s with errorCodes := [], lastSuccess := some now }
  let states' := updateState st.states name s'
  { st with states := states', persisted := states' }

/-- `set_credential_disabled`: flip the flag, re-run discovery, then
`save_states`. -/
def setCredentialDisabled (st : ManagerM) (name : String) (d : Bool) :
    ManagerM :=
  let s' := { st.states name with disabled := d }
  let states' := updateState st.states name s'
  let files' := discoverCredentialFiles st.dir states'
  { st with states := states', files := files', persisted := states' }

/-- `increment_call_count`. -/
def incrementCallCount (st : ManagerM) : ManagerM :=
  { st with callCount := st.callCount + 1 }

/-- Result of a credential-selection call: the Rust
`Result<Option<(creds, project)>>` value, the new manager state, and the log
of files on which `load_credentials_from_file` was invoked (in order). -/
structure CredOut (β : Type) where
  res : Except Unit (Option β)
  st : ManagerM
  log : List String

/-- The rotation step at the top of `get_current_credentials`. -/
def rotateIfNeeded (st : ManagerM) : ManagerM :=
  if st.callCount ≥ st.callsPerRotation ∧ st.files ≠ [] then
    { st with currentIndex := (st.currentIndex + 1) % st.files.length,
              callCount := 0 }
  else st

/-- `get_current_credentials` after the rotation step: empty-list
rediscovery, load at `current_index`, and the single next-index retry on an
`Ok(None)` load. -/
def getCurrentCore {β : Type} (load : String → LoadOutcome β)
    (st : ManagerM) : CredOut β :=
  let st1 := if st.files = [] then
      { st with files := discoverCredentialFiles st.dir st.states }
    else st
  if st1.files = [] then ⟨.ok none, st1, []⟩
  else
    let cur := st1.files.getD st1.currentIndex ""
    match load cur with
    | .ok c => ⟨.ok (some c), st1, [cur]⟩
    | .bad =>
      if st1.files.length > 1 then
        let st2 := { st1 with
          currentIndex := (st1.currentIndex + 1) % st1.files.length }
        let nxt := st2.files.getD st2.currentIndex ""
        match load nxt with
        | .ok c => ⟨.ok (some c), st2, [cur, nxt]⟩
        | .bad => ⟨.ok none, st2, [cur, nxt]⟩
        | .err => ⟨.error (), st2, [cur, nxt]⟩
      else ⟨.ok none, st1, [cur]⟩
    | .err => ⟨.ok none, st1, [cur]⟩

/-- `get_current_credentials` = rotation step, then the selection core. -/
def getCurrentCredentials {β : Type} (load : String → LoadOutcome β)
    (st : ManagerM) : CredOut β :=
  getCurrentCore load (rotateIfNeeded st)

/-- State of the failover loop of `get_credentials_with_retry`. -/
structure LoopOut (β : Type) where
  found : Option β
  idx : Nat
  tried : List Nat
  attempts : Nat
  log : List String

/-- The `while attempts < max_retries && tried.len() < files.len()` loop of
`get_credentials_with_retry`.  `fuel` is the structural recursion budget; the
caller passes `fuel = maxR - attempts`, so `0 < fuel` is exactly the
`attempts < max_retries` guard and the loop body is otherwise literal:
advance the index with wraparound, break when back at `start` with a
non-empty tried set, insert the index into the tried set, load, and return on
success. -/
def retryLoop {β : Type} (load : String → LoadOutcome β)
    (files : List String) (start : Nat) :
    Nat → Nat → List Nat → Nat → LoopOut β
  | 0, idx, tried, attempts => ⟨none, idx, tried, attempts, []⟩
  | fuel + 1, idx, tried, attempts =>
    if tried.length < files.length then
      let idx' := (idx + 1) % files.length
      if idx' = start ∧ tried ≠ [] then ⟨none, idx', tried, attempts, []⟩
      else
        let tried' := if idx' ∈ tried then tried else idx' :: tried
        let f := files.getD idx' ""
        match load f with
        | .ok c => ⟨some c, idx', tried', attempts, [f]⟩
        | _ =>
          let r := retryLoop load files start fuel idx' tried' (attempts + 1)
          ⟨r.found, r.idx, r.tried, r.attempts, f :: r.log⟩
    else ⟨none, idx, tried, attempts, []⟩

/-- `get_credentials_with_retry`: empty-list rediscovery, one attempt through
`get_current_credentials`, the bounded failover walk, and the final attempt
at the original (possibly already advanced) starting index. -/
def getCredentialsWithRetry {β : Type} (load : String → LoadOutcome β)
    (st : ManagerM) : CredOut β :=
  let st0 := if st.files = [] then
      { st with files := discoverCredentialFiles st.dir st.states }
    else st
  if st0.files = [] then ⟨.ok none, st0, []⟩
  else
    let g := getCurrentCredentials load st0
    match g.res with
    | .ok (some c) => ⟨.ok (some c), g.st, g.log⟩
    | _ =>
      let st1 := g.st
      let start := st1.currentIndex
      let r := retryLoop load st1.files start st1.maxRetries start [] 0
      match r.found with
      | some c => ⟨.ok (some c), { st1 with currentIndex := r.idx },
                   g.log ++ r.log⟩
      | none =>
        if r.attempts < st1.maxRetries ∧ start ∉ r.tried then
          let f := st1.files.getD start ""
          match load f with
          | .ok c => ⟨.ok (some c), { st1 with currentIndex := start },
                      g.log ++ r.log ++ [f]⟩
          | _ => ⟨.ok none, { st1 with currentIndex := r.idx },
                  g.log ++ r.log ++ [f]⟩
        else ⟨.ok none, { st1 with currentIndex := r.idx }, g.log ++ r.log⟩

/-! ## `src/models/gemini.rs` — stream chunk DTOs and their serde decoding -/

/-- `GeminiInlineData` (`mimeType` rename). -/
structure GeminiInlineDataM where
  mimeType : String
  data : String
deriving DecidableEq

/-- `GeminiPartData`: optional text, thought flag and inline data. -/
structure GeminiPartDataM where
  text : Option String
  thought : Option Bool
  inlineData : Option GeminiInlineDataM
deriving DecidableEq

/-- `GeminiPart` (a flattened `GeminiPartData`). -/
structure GeminiPartM where
  data : GeminiPartDataM
deriving DecidableEq

/-- `GeminiContent`: role and parts, both defaulted. -/
structure GeminiContentM where
  role : String
  parts : List GeminiPartM
deriving DecidableEq

/-- `GeminiSafetyRating`. -/
structure GeminiSafetyRatingM where
  category : String
  probability : String
deriving DecidableEq

/-- `GeminiCandidate`: content and index defaulted, the rest optional. -/
structure GeminiCandidateM where
  content : GeminiContentM
  finishReason : Option String
  index : Nat
  safetyRatings : Option (List GeminiSafetyRatingM)
deriving DecidableEq

/-- `GeminiUsageMetadata`. -/
structure GeminiUsageMetadataM where
  promptTokenCount : Option Nat
  candidatesTokenCount : Option Nat
  totalTokenCount : Option Nat
deriving DecidableEq

/-- `GeminiStreamChunk`: candidates (defaulted) plus usage metadata. -/
structure GeminiStreamChunkM where
  candidates : List GeminiCandidateM
  usageMetadata : Option GeminiUsageMetadataM
deriving DecidableEq

/-- Serde decoding of an optional string field: absent or `null` gives
`none`, a string gives its payload, any other shape is a type error. -/
def parseOptStrField (v : JsonValue) (key : String) :
    Option (Option String) :=
  match jsonGet v key with
  | none => some none
  | some .null => some none
  | some (.str s) => some (some s)
  | some _ => none

/-- Serde decoding of an optional boolean field. -/
def parseOptBoolField (v : JsonValue) (key : String) :
    Option (Option Bool) :=
  match jsonGet v key with
  | none => some none
  | some .null => some none
  | some (.bool b) => some (some b)
  | some _ => none

/-- Serde decoding of an optional non-negative integer field. -/
def parseOptNatField (v : JsonValue) (key : String) :
    Option (Option Nat) :=
  match jsonGet v key with
  | none => some none
  | some .null => some none
  | some (.num n) => if 0 ≤ n then some (some n.toNat) else none
  | some _ => none

/-- Serde decoding of `GeminiInlineData` from a JSON value. -/
def parseInlineData (v : JsonValue) : Option GeminiInlineDataM :=
  match jsonGet v "mimeType", jsonGet v "data" with
  | some (.str m), some (.str d) => some ⟨m, d⟩
  | _, _ => none

/-- Serde decoding of a flattened `GeminiPart`. -/
def parsePart (v : JsonValue) : Option GeminiPartM :=
  match v with
  | .obj _ => do
    let text ← parseOptStrField v "text"
    let thought ← parseOptBoolField v "thought"
    let inline ←
      match jsonGet v "inlineData" with
      | none => some none
      | some .null => some none
      | some w => (parseInlineData w).map some
    some ⟨⟨text, thought, inline⟩⟩
  | _ => none

/-- Serde decoding of `GeminiContent` (role and parts defaulted). -/
def parseContent (v : JsonValue) : Option GeminiContentM :=
  match v with
  | .obj _ => do
    let role ←
      match jsonGet v "role" with
      | none => some ""
      | some (.str s) => some s
      | some _ => none
    let parts ←
      match jsonGet v "parts" with
      | none => some []
      | some (.arr l) => l.mapM parsePart
      | some _ => none
    some ⟨role, parts⟩
  | _ => none

/-- Serde decoding of `GeminiSafetyRating`. -/
def parseSafetyRating (v : JsonValue) : Option GeminiSafetyRatingM :=
  match jsonGet v "category", jsonGet v "probability" with
  | some (.str c), some (.str p) => some ⟨c, p⟩
  | _, _ => none

/-- Serde decoding of `GeminiCandidate`. -/
def parseCandidate (v : JsonValue) : Option GeminiCandidateM :=
  match v with
  | .obj _ => do
    let content ←
      match jsonGet v "content" with
      | none => some ⟨"", []⟩
      | some w => parseContent w
    let finish ← parseOptStrField v "finish_reason"
    let index ←
      match jsonGet v "index" with
      | none => some 0
      | some (.num n) => if 0 ≤ n then some n.toNat else none
      | some _ => none
    let ratings ←
      match jsonGet v "safety_ratings" with
      | none => some none
      | some .null => some none
      | some (.arr l) => (l.mapM parseSafetyRating).map some
      | some _ => none
    some ⟨content, finish, index, ratings⟩
  | _ => none

/-- Serde decoding of `GeminiUsageMetadata`. -/
def parseUsageMetadata (v : JsonValue) : Option GeminiUsageMetadataM :=
  match v with
  | .obj _ => do
    let p ← parseOptNatField v "prompt_token_count"
    let c ← parseOptNatField v "candidates_token_count"
    let t ← parseOptNatField v "total_token_count"
    some ⟨p, c, t⟩
  | _ => none

/-- Serde decoding of `GeminiStreamChunk`
(`serde_json::from_value::<GeminiStreamChunk>`): requires a JSON object,
defaults `candidates` to the empty list, ignores unknown fields. -/
def parseStreamChunk (v : JsonValue) : Option GeminiStreamChunkM :=
  match v with
  | .obj _ => do
    let cands ←
      match jsonGet v "candidates" with
      | none => some []
      | some (.arr l) => l.mapM parseCandidate
      | some _ => none
    let usage ←
      match jsonGet v "usage_metadata" with
      | none => some none
      | some .null => some none
      | some w => (parseUsageMetadata w).map some
    some ⟨cands, usage⟩
  | _ => none

/-! ## `src/client/gemini.rs` — the streaming transform

`send_streaming_request` maps every transport byte chunk independently
through the closure at lines 224–312; there is no buffer carried from one
chunk to the next.  `parseJson` is the oracle standing for
`serde_json::from_str::<serde_json::Value>`. -/

/-- What the stream-map closure turns one transport chunk into: a decoded
event (possibly the degraded empty chunk), the `[DONE]` terminator error, a
JSON parse error on a `data: `-prefixed line, or the non-JSON error on an
unprefixed chunk. -/
inductive StreamItem where
  | event (c : GeminiStreamChunkM) : StreamItem
  | done : StreamItem
  | parseErr : StreamItem
  | nonJsonErr : StreamItem
deriving DecidableEq

/-- `text.strip_prefix("data: ")`. -/
def stripDataHeader (s : String) : Option String :=
  if "data: ".data.isPrefixOf s.data then
    some (String.mk (s.data.drop 6))
  else none

/-- Unwrap the optional vendor `response` envelope and decode the chunk; a
shape mismatch degrades to the empty chunk rather than an error. -/
def decodeChunkValue (v : JsonValue) : GeminiStreamChunkM :=
  match jsonGet v "response" with
  | some inner => (parseStreamChunk inner).getD ⟨[], none⟩
  | none => (parseStreamChunk v).getD ⟨[], none⟩

/-- The per-transport-chunk closure of `send_streaming_request`: each chunk
text is handled in isolation. -/
def processChunk (parseJson : String → Option JsonValue) (text : String) :
    StreamItem :=
  match stripDataHeader text with
  | some stripped =>
    let jsonStr := rustTrim stripped
    if jsonStr = "[DONE]" then .done
    else
      match parseJson jsonStr with
      | some v => .event (decodeChunkValue v)
      | none => .parseErr
  | none =>
    match parseJson text with
    | some v => .event (decodeChunkValue v)
    | none => .nonJsonErr

/-- Number of decoded events among the produced stream items. -/
def decodedEventCount (items : List StreamItem) : Nat :=
  items.countP fun i => match i with | .event _ => true | _ => false

/-! ## `src/client/service.rs` — `chat_completion` front end

The vendor interaction after credential selection (token refresh, onboarding
and the generate-content call) is network I/O; the model records whether that
stage was reached (`vendorCalled`) and which processed request would be
forwarded (`procReq`), and abstracts the response payload. -/

/-- The response category produced by `chat_completion` before any vendor
payload is involved. -/
inductive ChatResponseM where
  | health : ChatResponseM
  | fakeStream : ChatResponseM
  | errorResp (code : Nat) : ChatResponseM
  | forwarded : ChatResponseM

/-- Observable outcome of the `chat_completion` front end. -/
structure ChatOut where
  resp : ChatResponseM
  st : ManagerM
  credLog : List String
  vendorCalled : Bool
  procReq : Option OpenAIChatCompletionRequestM

/-- `chat_completion` up to the vendor call: health-check short circuit,
request normalisation (`limit_max_tokens`, `filter_empty_messages`), model
rewriting, fake-streaming branch, and `prepare_request_with_retry` =
`increment_call_count` + `get_credentials_with_retry` (a `None` result
becomes the 400 `invalid_request_error` response). -/
def chatCompletion {β : Type} (load : String → LoadOutcome β)
    (req : OpenAIChatCompletionRequestM) (st : ManagerM) : ChatOut :=
  if isHealthCheck req then ⟨.health, st, [], false, none⟩
  else
    let req1 := filterEmptyMessages (limitMaxTokens req)
    let realModel := getRealModel req1
    let fake := isFakeStreaming req1
    let req2 := { req1 with model := realModel }
    if fake then
      ⟨.fakeStream, st, [], false, some { req2 with stream := false }⟩
    else
      let st1 := incrementCallCount st
      let g := getCredentialsWithRetry load st1
      match g.res with
      | .ok (some _) => ⟨.forwarded, g.st, g.log, true, some req2⟩
      | _ => ⟨.errorResp 400, g.st, g.log, false, some req2⟩

/-! ## Helper lemmas -/

theorem add_mod_ne_of_lt (n a i : Nat) (ha : a < n) (hi1 : 1 ≤ i)
    (hin : i < n) : (a + i) % n ≠ a := by
  rcases Nat.lt_or_ge (a + i) n with h | h
  · rw [Nat.mod_eq_of_lt h]; omega
  · have h2 : a + i - n < n := by omega
    rw [Nat.mod_eq_sub_mod h, Nat.mod_eq_of_lt h2]; omega

theorem add_mod_ne_shift (n a d : Nat) (h1 : 1 ≤ d) (h2 : d < n) :
    (a + d) % n ≠ a % n := by
  intro h
  have h3 : a ≡ a + d [MOD n] := h.symm
  have hd : n ∣ d := by
    have := (Nat.modEq_iff_dvd' (Nat.le_add_right a d)).mp h3
    simpa using this
  have := Nat.le_of_dvd (by omega) hd
  omega

theorem exists_walk_dist (n start k : Nat) (hs : start < n) (hk : k < n)
    (hne : start ≠ k) :
    ∃ d, 1 ≤ d ∧ d ≤ n - 1 ∧ (start + d) % n = k := by
  rcases Nat.lt_or_ge start k with h | h
  · refine ⟨k - start, by omega, by omega, ?_⟩
    have he : start + (k - start) = k := by omega
    rw [he, Nat.mod_eq_of_lt hk]
  · have h2 : k < start := by omega
    refine ⟨n - start + k, by omega, by omega, ?_⟩
    have he : start + (n - start + k) = n + k := by omega
    rw [he, Nat.add_mod_left, Nat.mod_eq_of_lt hk]

theorem all_of_dropWhile_all (p : Char → Bool) (l : List Char)
    (h : ∀ x ∈ l.dropWhile p, p x = true) : ∀ x ∈ l, p x = true := by
  induction l with
  | nil => simp
  | cons c t ih =>
    intro x hx
    by_cases hc : p c = true
    · rw [List.dropWhile_cons, if_pos hc] at h
      rcases List.mem_cons.mp hx with hx | hx
      · exact hx ▸ hc
      · exact ih h x hx
    · rw [List.dropWhile_cons, if_neg hc] at h
      exact h x hx

theorem rustTrimList_eq_nil_iff (l : List Char) :
    rustTrimList l = [] ↔ l.all isRustWhitespace = true := by
  rw [rustTrimList, List.reverse_eq_nil_iff, List.dropWhile_eq_nil_iff,
    List.all_eq_true]
  constructor
  · intro h
    refine all_of_dropWhile_all _ _ ?_
    intro x hx
    exact h x (by simpa using hx)
  · intro h x hx
    have hx2 : x ∈ l.dropWhile isRustWhitespace := by simpa using hx
    exact h x ((List.dropWhile_sublist _).mem hx2)

theorem mem_discoverCredentialFiles (dir : List String)
    (states : String → CredentialStateM) (f : String) :
    f ∈ discoverCredentialFiles dir states ↔
      f ∈ dir ∧ hasJsonExt f = true ∧ (states f).disabled = false := by
  rw [discoverCredentialFiles,
    (List.perm_insertionSort (· ≤ ·) _).mem_iff, List.mem_filter]
  simp [isCredentialDisabled, and_assoc]

theorem getCurrentCore_eq_ok {β : Type} (load : String → LoadOutcome β)
    (st : ManagerM) (c : β) (hne : st.files ≠ [])
    (h : load (st.files.getD st.currentIndex "") = .ok c) :
    getCurrentCore load st =
      ⟨.ok (some c), st, [st.files.getD st.currentIndex ""]⟩ := by
  simp only [getCurrentCore, if_neg hne, h]

theorem getCurrentCore_eq_err {β : Type} (load : String → LoadOutcome β)
    (st : ManagerM) (hne : st.files ≠ [])
    (h : load (st.files.getD st.currentIndex "") = .err) :
    getCurrentCore load st =
      ⟨.ok none, st, [st.files.getD st.currentIndex ""]⟩ := by
  simp only [getCurrentCore, if_neg hne, h]

theorem getCurrentCore_eq_bad_single {β : Type} (load : String → LoadOutcome β)
    (st : ManagerM) (hne : st.files ≠ [])
    (hlen : ¬ 1 < st.files.length)
    (h : load (st.files.getD st.currentIndex "") = .bad) :
    getCurrentCore load st =
      ⟨.ok none, st, [st.files.getD st.currentIndex ""]⟩ := by
  simp only [getCurrentCore, if_neg hne, h, if_neg hlen]

theorem getCurrentCore_eq_bad {β : Type} (load : String → LoadOutcome β)
    (st : ManagerM) (hne : st.files ≠ [])
    (hlen : 1 < st.files.length)
    (h : load (st.files.getD st.currentIndex "") = .bad) :
    getCurrentCore load st =
      ⟨(match load (st.files.getD ((st.currentIndex + 1) % st.files.length) "")
          with
        | .ok c => .ok (some c)
        | .bad => .ok none
        | .err => .error ()),
       { st with currentIndex := (st.currentIndex + 1) % st.files.length },
       [st.files.getD st.currentIndex "",
        st.files.getD ((st.currentIndex + 1) % st.files.length) ""]⟩ := by
  simp only [getCurrentCore, if_neg hne, h, if_pos hlen]
  cases load (st.files.getD ((st.currentIndex + 1) % st.files.length) "") <;>
    rfl

theorem rotateIfNeeded_shape (st : ManagerM) :
    ∃ i0 cc, rotateIfNeeded st =
      { st with currentIndex := i0, callCount := cc } ∧
      (st.files ≠ [] → st.currentIndex < st.files.length →
        i0 < st.files.length) := by
  rw [rotateIfNeeded]
  split
  case isTrue h =>
    refine ⟨(st.currentIndex + 1) % st.files.length, 0, rfl, ?_⟩
    intro hne _
    exact Nat.mod_lt _ (List.length_pos.mpr hne)
  case isFalse h =>
    exact ⟨st.currentIndex, st.callCount, rfl, fun _ h2 => h2⟩

theorem rotateIfNeeded_eq_self (st : ManagerM)
    (h : st.callCount < st.callsPerRotation) : rotateIfNeeded st = st := by
  rw [rotateIfNeeded, if_neg]
  rintro ⟨h1, -⟩
  omega

theorem retryLoop_log_length {β : Type} (load : String → LoadOutcome β)
    (files : List String) (start : Nat) :
    ∀ (fuel idx : Nat) (tried : List Nat) (attempts : Nat),
      (retryLoop load files start fuel idx tried attempts).log.length ≤
        fuel := by
  intro fuel
  induction fuel with
  | zero => intro idx tried attempts; simp [retryLoop]
  | succ f ih =>
    intro idx tried attempts
    simp only [retryLoop]
    split
    · split
      · simp
      · split
        · simp
        · simpa using Nat.succ_le_succ (ih _ _ _)
    · simp

theorem retryLoop_log_of_none {β : Type} (load : String → LoadOutcome β)
    (files : List String) (start : Nat) :
    ∀ (fuel idx : Nat) (tried : List Nat) (attempts : Nat),
      (retryLoop load files start fuel idx tried attempts).found = none →
      (retryLoop load files start fuel idx tried attempts).log.length
          + attempts ≤
        (retryLoop load files start fuel idx tried attempts).attempts := by
  intro fuel
  induction fuel with
  | zero => intro idx tried attempts _; simp [retryLoop]
  | succ f ih =>
    intro idx tried attempts hnone
    simp only [retryLoop] at hnone ⊢
    revert hnone
    split
    · split
      · simp
      · split
        · simp
        · intro hnone
          have := ih _ _ _ hnone
          simpa using by omega
    · simp

theorem retryLoop_finds {β : Type} (load : String → LoadOutcome β)
    (files : List String) (start k : Nat) (c : β)
    (hk : k < files.length)
    (hload : load (files.getD k "") = .ok c)
    (hfail : ∀ j, j < files.length → j ≠ k →
      (load (files.getD j "")).isOk = false) :
    ∀ (d : Nat) (fuel idx : Nat) (tried : List Nat) (attempts : Nat),
      idx < files.length →
      1 ≤ d →
      (idx + d) % files.length = k →
      d ≤ fuel →
      tried.length + d ≤ files.length - 1 →
      (∀ i, 1 ≤ i → i ≤ d → (idx + i) % files.length ≠ start) →
      (retryLoop load files start fuel idx tried attempts).found = some c := by
  have npos : 0 < files.length := by omega
  intro d
  induction d with
  | zero => intro fuel idx tried attempts _ h1; omega
  | succ d ih =>
    intro fuel idx tried attempts hidx _ hreach hfuel htried hstart
    obtain ⟨fuel', rfl⟩ : ∃ f', fuel = f' + 1 := ⟨fuel - 1, by omega⟩
    simp only [retryLoop]
    rw [if_pos (by omega : tried.length < files.length)]
    rw [if_neg (by
      rintro ⟨heq, -⟩
      exact hstart 1 (by omega) (by omega) heq)]
    rcases Nat.eq_or_lt_of_le (Nat.one_le_iff_ne_zero.mpr
      (by omega : d + 1 ≠ 0)) with hd1 | hd1
    · -- one step left: the next index is k
      have hk' : (idx + 1) % files.length = k := by
        rw [← hd1] at hreach; exact hreach
      rw [hk', hload]
    · -- more than one step left: the next index fails, recurse
      have hd2 : 1 ≤ d := by omega
      have hlt : (idx + 1) % files.length < files.length := Nat.mod_lt _ npos
      have hne : (idx + 1) % files.length ≠ k := by
        intro he
        have h1 : ((idx + 1) + d) % files.length = k := by
          have : idx + (d + 1) = (idx + 1) + d := by omega
          rw [this] at hreach; exact hreach
        have h2 : ((idx + 1) + d) % files.length ≠ (idx + 1) % files.length :=
          add_mod_ne_shift _ _ _ hd2 (by omega)
        exact h2 (h1.trans he.symm)
      have hfailnext := hfail _ hlt hne
      cases hl : load (files.getD ((idx + 1) % files.length) "") with
      | ok c' => rw [hl] at hfailnext; simp [LoadOutcome.isOk] at hfailnext
      | bad =>
        have := ih fuel' ((idx + 1) % files.length)
          (if (idx + 1) % files.length ∈ tried then tried
           else (idx + 1) % files.length :: tried)
          (attempts + 1) hlt hd2
          (by rw [Nat.mod_add_mod]
              have : idx + 1 + d = idx + (d + 1) := by omega
              rw [this]; exact hreach)
          (by omega)
          (by split <;> (try simp only [List.length_cons]) <;> omega)
          (by
            intro i hi1 hi2
            rw [Nat.mod_add_mod]
            have : idx + 1 + i = idx + (i + 1) := by omega
            rw [this]
            exact hstart (i + 1) (by omega) (by omega))
        simpa using this
      | err =>
        have := ih fuel' ((idx + 1) % files.length)
          (if (idx + 1) % files.length ∈ tried then tried
           else (idx + 1) % files.length :: tried)
          (attempts + 1) hlt hd2
          (by rw [Nat.mod_add_mod]
              have : idx + 1 + d = idx + (d + 1) := by omega
              rw [this]; exact hreach)
          (by omega)
          (by split <;> (try simp only [List.length_cons]) <;> omega)
          (by
            intro i hi1 hi2
            rw [Nat.mod_add_mod]
            have : idx + 1 + i = idx + (i + 1) := by omega
            rw [this]
            exact hstart (i + 1) (by omega) (by omega))
        simpa using this

theorem retry_after_fail {β : Type} (load : String → LoadOutcome β)
    (files : List String) (maxR start k : Nat) (c : β)
    (hstart : start < files.length) (hk : k < files.length)
    (hne : start ≠ k)
    (hload : load (files.getD k "") = .ok c)
    (hfail : ∀ j, j < files.length → j ≠ k →
      (load (files.getD j "")).isOk = false)
    (hmr : files.length - 1 ≤ maxR) :
    (retryLoop load files start maxR start [] 0).found = some c := by
  obtain ⟨d, h1, h2, h3⟩ :=
    exists_walk_dist files.length start k hstart hk hne
  refine retryLoop_finds load files start k c hk hload hfail d maxR start [] 0
    hstart h1 h3 (by omega) (by simpa using h2) ?_
  intro i hi1 hi2
  exact add_mod_ne_of_lt _ _ _ hstart hi1 (by omega)

theorem getCurrentCredentials_log_le {β : Type} (load : String → LoadOutcome β)
    (st : ManagerM) : (getCurrentCredentials load st).log.length ≤ 2 := by
  simp only [getCurrentCredentials, getCurrentCore]
  (repeat' split) <;> simp

theorem getCurrentCredentials_maxRetries {β : Type}
    (load : String → LoadOutcome β) (st : ManagerM) :
    (getCurrentCredentials load st).st.maxRetries = st.maxRetries := by
  simp only [getCurrentCredentials, getCurrentCore, rotateIfNeeded]
  (repeat' split) <;> rfl

theorem withRetry_log_le {β : Type} (load : String → LoadOutcome β)
    (st : ManagerM) :
    (getCredentialsWithRetry load st).log.length ≤ st.maxRetries + 2 := by
  have hbody : ∀ g : CredOut β, g.log.length ≤ 2 →
      g.st.maxRetries = st.maxRetries →
      (match g.res with
       | .ok (some c) => (⟨.ok (some c), g.st, g.log⟩ : CredOut β)
       | _ =>
         let st1 := g.st
         let start := st1.currentIndex
         let r := retryLoop load st1.files start st1.maxRetries start [] 0
         match r.found with
         | some c => ⟨.ok (some c), { st1 with currentIndex := r.idx },
                      g.log ++ r.log⟩
         | none =>
           if r.attempts < st1.maxRetries ∧ start ∉ r.tried then
             let f := st1.files.getD start ""
             match load f with
             | .ok c => ⟨.ok (some c), { st1 with currentIndex := start },
                         g.log ++ r.log ++ [f]⟩
             | _ => ⟨.ok none, { st1 with currentIndex := r.idx },
                     g.log ++ r.log ++ [f]⟩
           else ⟨.ok none, { st1 with currentIndex := r.idx },
                 g.log ++ r.log⟩).log.length ≤ st.maxRetries + 2 := by
    intro g hg2 hgmr
    have hr2 : (retryLoop load g.st.files g.st.currentIndex g.st.maxRetries
        g.st.currentIndex [] 0).log.length ≤ g.st.maxRetries :=
      retryLoop_log_length _ _ _ _ _ _ _
    split
    · exact le_trans hg2 (by omega)
    · dsimp only
      split
      case h_1 c heq =>
        simp only [List.length_append]
        omega
      case h_2 heq =>
        split
        case isTrue hgate =>
          have hnone : (retryLoop load g.st.files g.st.currentIndex
              g.st.maxRetries g.st.currentIndex [] 0).log.length + 0 ≤
              (retryLoop load g.st.files g.st.currentIndex g.st.maxRetries
                g.st.currentIndex [] 0).attempts :=
            retryLoop_log_of_none _ _ _ _ _ _ _ heq
          split <;>
            · simp only [List.length_append, List.length_cons,
                List.length_nil]
              omega
        case isFalse hgate =>
          simp only [List.length_append]
          omega
  simp only [getCredentialsWithRetry]
  split
  case isTrue h0 =>
    split
    · simp
    · exact hbody
        (getCurrentCredentials load
          { st with files := discoverCredentialFiles st.dir st.states })
        (getCurrentCredentials_log_le load _)
        (by rw [getCurrentCredentials_maxRetries])
  case isFalse h0 =>
    exact hbody (getCurrentCredentials load st)
      (getCurrentCredentials_log_le load _)
      (by rw [getCurrentCredentials_maxRetries])

theorem withRetry_finds_unique {β : Type} (load : String → LoadOutcome β)
    (st : ManagerM) (k : Nat) (c : β)
    (hne : st.files ≠ [])
    (hidx : st.currentIndex < st.files.length)
    (hmr : st.files.length - 1 ≤ st.maxRetries)
    (hk : k < st.files.length)
    (hload : load (st.files.getD k "") = .ok c)
    (hfail : ∀ j, j < st.files.length → j ≠ k →
      (load (st.files.getD j "")).isOk = false) :
    (getCredentialsWithRetry load st).res = .ok (some c) := by
  have npos : 0 < st.files.length := List.length_pos.mpr hne
  obtain ⟨i0, cc, hrot, hlt⟩ := rotateIfNeeded_shape st
  have hi0 : i0 < st.files.length := hlt hne hidx
  have hgc : getCurrentCredentials load st =
      getCurrentCore load { st with currentIndex := i0, callCount := cc } := by
    rw [getCurrentCredentials, hrot]
  simp only [getCredentialsWithRetry, if_neg hne]
  by_cases hik : i0 = k
  · have hcur : load (st.files.getD i0 "") = .ok c := hik ▸ hload
    have hgc2 : getCurrentCredentials load st =
        ⟨.ok (some c), { st with currentIndex := i0, callCount := cc },
         [st.files.getD i0 ""]⟩ :=
      hgc.trans (getCurrentCore_eq_ok load _ c hne hcur)
    rw [hgc2]
  · have hfl := hfail i0 hi0 hik
    cases hcur : load (st.files.getD i0 "") with
    | ok c' => rw [hcur] at hfl; simp [LoadOutcome.isOk] at hfl
    | err =>
      have hgc2 : getCurrentCredentials load st =
          ⟨.ok none, { st with currentIndex := i0, callCount := cc },
           [st.files.getD i0 ""]⟩ :=
        hgc.trans (getCurrentCore_eq_err load _ hne hcur)
      rw [hgc2]
      have hfound := retry_after_fail load st.files st.maxRetries i0 k c
        hi0 hk hik hload hfail hmr
      simp only []
      rw [hfound]
    | bad =>
      by_cases hlen : 1 < st.files.length
      · have hi1 : (i0 + 1) % st.files.length < st.files.length :=
          Nat.mod_lt _ npos
        have hgc2 : getCurrentCredentials load st =
            ⟨(match load
                (st.files.getD ((i0 + 1) % st.files.length) "") with
              | .ok c => .ok (some c)
              | .bad => .ok none
              | .err => .error ()),
             { st with currentIndex := (i0 + 1) % st.files.length,
                       callCount := cc },
             [st.files.getD i0 "",
              st.files.getD ((i0 + 1) % st.files.length) ""]⟩ :=
          hgc.trans (getCurrentCore_eq_bad load _ hne hlen hcur)
        by_cases hik1 : (i0 + 1) % st.files.length = k
        · have hnxt : load (st.files.getD ((i0 + 1) % st.files.length) "") =
              .ok c := hik1 ▸ hload
          rw [hgc2, hnxt]
        · have hfl1 := hfail _ hi1 hik1
          cases hnxt : load (st.files.getD ((i0 + 1) % st.files.length) "")
            with
          | ok c' => rw [hnxt] at hfl1; simp [LoadOutcome.isOk] at hfl1
          | bad =>
            rw [hgc2, hnxt]
            have hfound := retry_after_fail load st.files st.maxRetries
              ((i0 + 1) % st.files.length) k c hi1 hk hik1 hload hfail hmr
            simp only []
            rw [hfound]
          | err =>
            rw [hgc2, hnxt]
            have hfound := retry_after_fail load st.files st.maxRetries
              ((i0 + 1) % st.files.length) k c hi1 hk hik1 hload hfail hmr
            simp only []
            rw [hfound]
      · omega

/-! ## Concrete sample data used by witnesses and counterexamples -/

/-- The all-default credential state map. -/
def defaultStates : String → CredentialStateM := fun _ => defaultCredState

/-- A manager state with an empty directory listing, default credential
states and the given eligible files, cursor and counters. -/
def sampleManager (files : List String) (idx cpr cc mr : Nat) : ManagerM :=
  ⟨[], defaultStates, defaultStates, files, idx, cpr, cc, mr⟩

/-! ## Claim C4 -/

/-- Claim C4, counterexample: `model-a-nothinking-b` ends in neither
suffix and is not an image model, so per the claim it should get the default
budget `⟨-1, true⟩`; the code detects the suffixes with substring
containment and returns `⟨128, false⟩`. -/
theorem c4_counterexample :
    strEndsWith "model-a-nothinking-b" "-nothinking" = false ∧
    strEndsWith "model-a-nothinking-b" "-maxthinking" = false ∧
    isImageModel "model-a-nothinking-b" = false ∧
    getThinkingConfig "model-a-nothinking-b" =
      some ⟨128, false⟩ ∧
    some (⟨128, false⟩ : GeminiThinkingConfigM) ≠
      some ⟨-1, true⟩ := by
  decide

/-- Claim C4 (amended): detection is by substring containment rather than
suffix matching, with `-nothinking` taking precedence over `-maxthinking`:
for a non-image model name, containing `-nothinking` with a base model that
is not a `gemini-2.5-pro` variant yields budget 128 with thoughts disabled;
containing `-maxthinking` but not `-nothinking` yields budget 32768 with
thoughts enabled; containing neither yields the default budget −1 with
thoughts enabled; an image-family name yields no thinking configuration
regardless of suffix. -/
theorem c4_thinking_config_rules (m : String) :
    (isImageModel m = true → getThinkingConfig m = none) ∧
    (isImageModel m = false → isNothinkingModel m = true →
      strContains (getBaseModelName m) "gemini-2.5-pro" = false →
      getThinkingConfig m = some ⟨128, false⟩) ∧
    (isImageModel m = false → isNothinkingModel m = false →
      isMaxthinkingModel m = true →
      getThinkingConfig m = some ⟨32768, true⟩) ∧
    (isImageModel m = false → isNothinkingModel m = false →
      isMaxthinkingModel m = false →
      getThinkingConfig m = some ⟨-1, true⟩) := by
  refine ⟨?_, ?_, ?_, ?_⟩ <;> intros <;>
    simp_all [getThinkingConfig, getThinkingBudget, shouldIncludeThoughts]

/-- Claim C4, witness: each rule of the amended claim evaluated at a
concrete model name. -/
theorem c4_witness :
    getThinkingConfig "gemini-2.5-flash-nothinking" = some ⟨128, false⟩ ∧
    getThinkingConfig "gemini-2.5-flash-image-nothinking" = none ∧
    getThinkingConfig "gemini-2.5-flash-maxthinking" = some ⟨32768, true⟩ ∧
    getThinkingConfig "gemini-2.5-flash" = some ⟨-1, true⟩ :=
  ⟨(c4_thinking_config_rules _).2.1 (by decide) (by decide) (by decide),
   (c4_thinking_config_rules _).1 (by decide),
   (c4_thinking_config_rules _).2.2.1 (by decide) (by decide) (by decide),
   (c4_thinking_config_rules _).2.2.2 (by decide) (by decide) (by decide)⟩

/-! ## Claim C5 -/

/-- Claim C5: when `call_count ≥ calls_per_rotation` and the eligible list is
non-empty, the rotation step advances `current_index` by one modulo the list
length and resets `call_count` to 0; when `call_count` is below the
threshold it leaves the state (in particular `current_index`) unchanged; and
`get_current_credentials` performs this rotation step before selecting a
credential. -/
theorem c5_rotation_step (st : ManagerM) :
    (st.callsPerRotation ≤ st.callCount → st.files ≠ [] →
      rotateIfNeeded st =
        { st with currentIndex := (st.currentIndex + 1) % st.files.length,
                  callCount := 0 }) ∧
    (st.callCount < st.callsPerRotation → rotateIfNeeded st = st) ∧
    (∀ (load : String → LoadOutcome Nat),
      getCurrentCredentials load st = getCurrentCore load (rotateIfNeeded st)) := by
  refine ⟨?_, ?_, fun _ => rfl⟩
  · intro h1 h2
    rw [rotateIfNeeded, if_pos ⟨h1, h2⟩]
  · intro h
    exact rotateIfNeeded_eq_self st h

/-- Claim C5, witness: rotation fires at the threshold on a two-file manager
and is the identity below it. -/
theorem c5_witness :
    rotateIfNeeded (sampleManager ["a.json", "b.json"] 0 3 3 2) =
      { sampleManager ["a.json", "b.json"] 0 3 3 2 with
          currentIndex := (0 + 1) % 2, callCount := 0 } ∧
    rotateIfNeeded (sampleManager ["a.json", "b.json"] 0 3 1 2) =
      sampleManager ["a.json", "b.json"] 0 3 1 2 :=
  ⟨(c5_rotation_step _).1 (by decide) (by simp [sampleManager]),
   (c5_rotation_step _).2.1 (by decide)⟩

/-! ## Claim C6 -/

/-- Claim C6: discovery yields exactly the `.json`-extension files of the
directory whose persisted state is not disabled, in lexicographically sorted
order; `set_credential_disabled` re-runs discovery against the updated state
map, so a disabled file is out of the refreshed eligible list and a
re-enabled `.json` directory entry is back in it. -/
theorem c6_discovery_eligibility (st : ManagerM) (name f : String)
    (hext : hasJsonExt name = true) (hmem : name ∈ st.dir) :
    (f ∈ discoverCredentialFiles st.dir st.states ↔
      f ∈ st.dir ∧ hasJsonExt f = true ∧ (st.states f).disabled = false) ∧
    List.Sorted (· ≤ ·) (discoverCredentialFiles st.dir st.states) ∧
    (setCredentialDisabled st name true).files =
      discoverCredentialFiles st.dir
        (setCredentialDisabled st name true).states ∧
    name ∉ (setCredentialDisabled st name true).files ∧
    name ∈ (setCredentialDisabled st name false).files := by
  refine ⟨mem_discoverCredentialFiles _ _ _,
    List.sorted_insertionSort _ _, rfl, ?_, ?_⟩
  · intro hmem2
    have h2 := (mem_discoverCredentialFiles _
      (setCredentialDisabled st name true).states name).mp hmem2
    have h3 : ((setCredentialDisabled st name true).states name).disabled =
        true := by
      simp [setCredentialDisabled, updateState]
    rw [h3] at h2
    exact absurd h2.2.2 (by simp)
  · refine (mem_discoverCredentialFiles _ _ name).mpr ⟨hmem, hext, ?_⟩
    simp [setCredentialDisabled, updateState]

/-- Claim C6, witness: a two-file directory where disabling `a.json` removes
it from the eligible list and re-enabling restores it. -/
theorem c6_witness :
    ("a.json" ∈
      discoverCredentialFiles ["b.json", "a.json"] defaultStates ↔
      "a.json" ∈ ["b.json", "a.json"] ∧ hasJsonExt "a.json" = true ∧
        (defaultStates "a.json").disabled = false) ∧
    List.Sorted (· ≤ ·)
      (discoverCredentialFiles ["b.json", "a.json"] defaultStates) ∧
    (setCredentialDisabled
        ⟨["b.json", "a.json"], defaultStates, defaultStates,
         ["a.json", "b.json"], 0, 5, 0, 3⟩ "a.json" true).files =
      discoverCredentialFiles ["b.json", "a.json"]
        (setCredentialDisabled
          ⟨["b.json", "a.json"], defaultStates, defaultStates,
           ["a.json", "b.json"], 0, 5, 0, 3⟩ "a.json" true).states ∧
    "a.json" ∉ (setCredentialDisabled
        ⟨["b.json", "a.json"], defaultStates, defaultStates,
         ["a.json", "b.json"], 0, 5, 0, 3⟩ "a.json" true).files ∧
    "a.json" ∈ (setCredentialDisabled
        ⟨["b.json", "a.json"], defaultStates, defaultStates,
         ["a.json", "b.json"], 0, 5, 0, 3⟩ "a.json" false).files :=
  c6_discovery_eligibility
    ⟨["b.json", "a.json"], defaultStates, defaultStates,
     ["a.json", "b.json"], 0, 5, 0, 3⟩ "a.json" "a.json"
    (by decide) (by decide)

/-! ## Claim C7 -/

/-- A state map whose persisted file already contains a duplicated error
code for `a.json`. -/
def dupStates : String → CredentialStateM :=
  fun f => if f = "a.json" then ⟨[500, 500], false, none⟩ else defaultCredState

/-- Claim C7, counterexample: starting from a prior state whose error list
already holds the code twice (as a hand-edited or corrupted persisted state
file can), recording the same code twice leaves two occurrences, not exactly
one. -/
theorem c7_counterexample :
    ((recordError
        (recordError
          ⟨[], dupStates, dupStates, [], 0, 5, 0, 3⟩ "a.json" 500)
        "a.json" 500).states "a.json").errorCodes.count 500 = 2 := by
  decide

/-- Claim C7 (amended): `record_error` never introduces a duplicate — it is
idempotent as a state transformer, and whenever the code occurred at most
once before (as in every state the manager itself produces), recording it
twice leaves exactly one occurrence; the full state map is persisted after
each call. -/
theorem c7_record_error_idempotent (st : ManagerM) (name : String)
    (code : Nat) :
    ((recordError (recordError st name code) name code).states =
      (recordError st name code).states ∧
     (recordError (recordError st name code) name code).persisted =
      (recordError st name code).persisted) ∧
    ((st.states name).errorCodes.count code ≤ 1 →
      ((recordError (recordError st name code) name code).states
          name).errorCodes.count code = 1) ∧
    (recordError st name code).persisted = (recordError st name code).states := by
  have hkey : ((recordError st name code).states name) =
      (if code ∈ (st.states name).errorCodes then st.states name
       else { st.states name with
                errorCodes := (st.states name).errorCodes ++ [code] }) := by
    simp [recordError, updateState]
  have hmem : code ∈ ((recordError st name code).states name).errorCodes := by
    rw [hkey]
    split
    · assumption
    · simp
  have hstates : (recordError (recordError st name code) name code).states =
      (recordError st name code).states := by
    funext f
    by_cases hf : f = name
    · subst hf
      simp [recordError, updateState, if_pos hmem]
      simp [recordError, updateState] at hmem ⊢
      split <;> simp_all
    · simp [recordError, updateState, hf]
  refine ⟨⟨hstates, ?_⟩, ?_, rfl⟩
  · have : (recordError (recordError st name code) name code).persisted =
        (recordError (recordError st name code) name code).states := rfl
    rw [this, hstates]
    rfl
  · intro hcount
    rw [hstates, hkey]
    split
    case isTrue h =>
      have h1 : 1 ≤ (st.states name).errorCodes.count code :=
        List.one_le_count_iff.mpr h
      omega
    case isFalse h =>
      have h0 : (st.states name).errorCodes.count code = 0 :=
        List.count_eq_zero.mpr h
      simp [List.count_append, h0]

/-- Claim C7, witness: recording code 500 twice against a fresh state yields
a single occurrence, with the map persisted. -/
theorem c7_witness :
    ((recordError
        (recordError (sampleManager ["a.json"] 0 5 0 3) "a.json" 500)
        "a.json" 500).states "a.json").errorCodes.count 500 = 1 ∧
    (recordError (sampleManager ["a.json"] 0 5 0 3) "a.json" 500).persisted =
      (recordError (sampleManager ["a.json"] 0 5 0 3) "a.json" 500).states :=
  ⟨(c7_record_error_idempotent (sampleManager ["a.json"] 0 5 0 3)
      "a.json" 500).2.1 (by decide),
   (c7_record_error_idempotent (sampleManager ["a.json"] 0 5 0 3)
      "a.json" 500).2.2⟩

/-! ## Claim C8 -/

/-- Claim C8: `record_success` empties the credential's error-code set, sets
`last_success` to the current timestamp, persists the full state map, and
touches no other credential's state. -/
theorem c8_record_success (st : ManagerM) (name : String) (now : Nat) :
    ((recordSuccess st name now).states name).errorCodes = [] ∧
    ((recordSuccess st name now).states name).lastSuccess = some now ∧
    (recordSuccess st name now).persisted = (recordSuccess st name now).states ∧
    (∀ f, f ≠ name → (recordSuccess st name now).states f = st.states f) := by
  refine ⟨?_, ?_, rfl, ?_⟩
  · simp [recordSuccess, updateState]
  · simp [recordSuccess, updateState]
  · intro f hf
    simp [recordSuccess, updateState, hf]

/-- Claim C8, witness: a success recorded over a dirty prior state clears
it and stamps the timestamp. -/
theorem c8_witness :
    ((recordSuccess ⟨[], dupStates, dupStates, [], 0, 5, 0, 3⟩
        "a.json" 42).states "a.json").errorCodes = [] ∧
    ((recordSuccess ⟨[], dupStates, dupStates, [], 0, 5, 0, 3⟩
        "a.json" 42).states "a.json").lastSuccess = some 42 ∧
    (recordSuccess ⟨[], dupStates, dupStates, [], 0, 5, 0, 3⟩
        "a.json" 42).persisted =
      (recordSuccess ⟨[], dupStates, dupStates, [], 0, 5, 0, 3⟩
        "a.json" 42).states ∧
    (recordSuccess ⟨[], dupStates, dupStates, [], 0, 5, 0, 3⟩
        "a.json" 42).states "b.json" = dupStates "b.json" :=
  ⟨(c8_record_success _ "a.json" 42).1,
   (c8_record_success _ "a.json" 42).2.1,
   (c8_record_success _ "a.json" 42).2.2.1,
   (c8_record_success _ "a.json" 42).2.2.2 "b.json" (by decide)⟩

/-! ## Claim C9 -/

/-- Claim C9: a request whose message list is exactly one `user` message with
string content `"Hi"` is answered with the fixed health-check reply before
any request processing: the manager state is unchanged (no call-count
increment, no rotation), no credential file is loaded, and the vendor stage
is never reached. -/
theorem c9_health_check_short_circuit {β : Type}
    (load : String → LoadOutcome β) (req : OpenAIChatCompletionRequestM)
    (st : ManagerM) (rc : Option String)
    (h : req.messages = [⟨"user", .str "Hi", rc⟩]) :
    chatCompletion load req st = ⟨.health, st, [], false, none⟩ := by
  have hh : isHealthCheck req = true := by
    rw [isHealthCheck, h]
    simp [jsonAsStr]
  rw [chatCompletion, if_pos hh]

/-- Claim C9, witness: the short circuit evaluated on a concrete request and
manager. -/
theorem c9_witness :
    chatCompletion (fun _ => LoadOutcome.bad (β := Nat))
      ⟨"gemini-2.5-pro", [⟨"user", .str "Hi", none⟩], false, none⟩
      (sampleManager ["a.json"] 0 5 0 3) =
    ⟨.health, sampleManager ["a.json"] 0 5 0 3, [], false, none⟩ :=
  c9_health_check_short_circuit _ _ _ none rfl

/-! ## Claim C10 -/

/-- The retention test agrees with the claim's wording: a message survives
the filter exactly when its content is not a JSON string, or is a JSON
string that is not whitespace-only. -/
theorem keepMessage_iff (m : OpenAIChatMessageM) :
    keepMessage m = true ↔
      jsonAsStr m.content = none ∨
      (∃ s, jsonAsStr m.content = some s ∧
        s.data.all isRustWhitespace = false) := by
  rw [keepMessage]
  cases h : jsonAsStr m.content with
  | none => simp
  | some s =>
    have hempty : (rustTrim s).isEmpty = true ↔
        s.data.all isRustWhitespace = true := by
      rw [String.isEmpty_iff, rustTrim]
      constructor
      · intro he
        have hnil : rustTrimList s.data = [] := by
          have := congrArg String.data he
          simpa using this
        exact (rustTrimList_eq_nil_iff s.data).mp hnil
      · intro ha
        rw [(rustTrimList_eq_nil_iff s.data).mpr ha]
    dsimp only
    constructor
    · intro hk
      refine Or.inr ⟨s, rfl, ?_⟩
      by_contra hb
      have hb' : s.data.all isRustWhitespace = true := by
        revert hb
        cases s.data.all isRustWhitespace <;> simp
      rw [hempty.mpr hb'] at hk
      simp at hk
    · rintro (hc | ⟨s', hs', hall⟩)
      · simp at hc
      · rw [← Option.some.inj hs'] at hall
        have hf : (rustTrim s).isEmpty = false := by
          rcases he : (rustTrim s).isEmpty with _ | _
          · rfl
          · rw [hempty.mp he] at hall
            simp at hall
        rw [hf]
        rfl

/-- `limit_max_tokens` does not touch the message list. -/
theorem limitMaxTokens_messages (req : OpenAIChatCompletionRequestM) :
    (limitMaxTokens req).messages = req.messages := by
  rw [limitMaxTokens]
  split
  · split <;> rfl
  · rfl

/-- Claim C10: for a non-health-check request, `chat_completion` filters the
message list before translation: a message is kept exactly when its content
is not a JSON string or is a JSON string that is not whitespace-only (so
whitespace-only and empty string contents are silently dropped, and
non-string contents such as multimodal part arrays are always retained),
and the request handed past the front end carries exactly the filtered
message list. -/
theorem c10_filter_empty_messages {β : Type} (load : String → LoadOutcome β)
    (req : OpenAIChatCompletionRequestM) (st : ManagerM)
    (m : OpenAIChatMessageM)
    (hnh : isHealthCheck req = false) :
    (m ∈ (filterEmptyMessages req).messages ↔
      m ∈ req.messages ∧
        (jsonAsStr m.content = none ∨
         (∃ s, jsonAsStr m.content = some s ∧
           s.data.all isRustWhitespace = false))) ∧
    (∃ r, (chatCompletion load req st).procReq = some r ∧
      r.messages = req.messages.filter keepMessage) := by
  constructor
  · rw [filterEmptyMessages]
    dsimp only
    rw [List.mem_filter]
    constructor
    · rintro ⟨h1, h2⟩
      exact ⟨h1, (keepMessage_iff m).mp h2⟩
    · rintro ⟨h1, h2⟩
      exact ⟨h1, (keepMessage_iff m).mpr h2⟩
  · rw [chatCompletion, if_neg (by simp [hnh])]
    dsimp only
    split
    · exact ⟨_, rfl, by simp [filterEmptyMessages, limitMaxTokens_messages]⟩
    · split
      · exact ⟨_, rfl, by
          simp [filterEmptyMessages, limitMaxTokens_messages]⟩
      · exact ⟨_, rfl, by
          simp [filterEmptyMessages, limitMaxTokens_messages]⟩

/-- Claim C10, witness: on a three-message request (one whitespace-only
string, one multimodal array, one non-blank string), the whitespace-only
message is characterised out and the forwarded request carries the filtered
list. -/
theorem c10_witness :
    (⟨"user", .str " ", none⟩ ∈
      (filterEmptyMessages
        ⟨"gemini-2.5-pro",
         [⟨"user", .str " ", none⟩, ⟨"user", .arr [], none⟩,
          ⟨"user", .str "x", none⟩], false, none⟩).messages ↔
      (⟨"user", .str " ", none⟩ : OpenAIChatMessageM) ∈
        [⟨"user", .str " ", none⟩, ⟨"user", .arr [], none⟩,
         ⟨"user", .str "x", none⟩] ∧
        (jsonAsStr (.str " ") = none ∨
         (∃ s, jsonAsStr (.str " ") = some s ∧
           s.data.all isRustWhitespace = false))) ∧
    (∃ r, (chatCompletion (fun _ => LoadOutcome.bad (β := Nat))
        ⟨"gemini-2.5-pro",
         [⟨"user", .str " ", none⟩, ⟨"user", .arr [], none⟩,
          ⟨"user", .str "x", none⟩], false, none⟩
        (sampleManager ["a.json"] 0 5 0 3)).procReq = some r ∧
      r.messages =
        [⟨"user", .str " ", none⟩, ⟨"user", .arr [], none⟩,
         ⟨"user", .str "x", none⟩].filter keepMessage) :=
  c10_filter_empty_messages (fun _ => LoadOutcome.bad (β := Nat))
    ⟨"gemini-2.5-pro",
     [⟨"user", .str " ", none⟩, ⟨"user", .arr [], none⟩,
      ⟨"user", .str "x", none⟩], false, none⟩
    (sampleManager ["a.json"] 0 5 0 3)
    ⟨"user", .str " ", none⟩ rfl

/-! ## Claim C3 -/

/-- A load oracle under which `a.json` fails with a read/parse error while
`b.json` loads fine. -/
def cexLoad3 : String → LoadOutcome Nat :=
  fun f => if f = "b.json" then .ok 7 else .err

/-- Claim C3, counterexample: with two eligible files, a read/parse error
(`Err`) on the file at `current_index` makes `get_current_credentials`
return `None` immediately — the very next index is never tried (only one
file appears in the load log) even though its credential is usable. -/
theorem c3_counterexample :
    (getCurrentCredentials cexLoad3
      (sampleManager ["a.json", "b.json"] 0 5 0 3)).res = .ok none ∧
    (getCurrentCredentials cexLoad3
      (sampleManager ["a.json", "b.json"] 0 5 0 3)).log = ["a.json"] ∧
    cexLoad3 "b.json" = .ok 7 := by
  refine ⟨?_, ?_, rfl⟩ <;> rfl

/-- Claim C3 (amended): below the rotation threshold, with a non-empty
eligible list and an in-range cursor, `get_current_credentials` behaves as
follows: a successful load at `current_index` is returned as is; a load
that yields a parsed file with an empty refresh token (`Ok(None)`) with more
than one eligible file advances the cursor and tries exactly the very next
index once, returning that second outcome; the same failure with a single
eligible file gives `None`; and a read or parse error (`Err`) gives `None`
immediately without trying any other file. -/
theorem c3_single_retry_semantics {β : Type} (load : String → LoadOutcome β)
    (st : ManagerM)
    (hcc : st.callCount < st.callsPerRotation)
    (hne : st.files ≠ []) :
    (∀ c, load (st.files.getD st.currentIndex "") = .ok c →
      getCurrentCredentials load st =
        ⟨.ok (some c), st, [st.files.getD st.currentIndex ""]⟩) ∧
    (load (st.files.getD st.currentIndex "") = .bad →
      1 < st.files.length →
      getCurrentCredentials load st =
        ⟨(match load
            (st.files.getD ((st.currentIndex + 1) % st.files.length) "") with
          | .ok c => .ok (some c)
          | .bad => .ok none
          | .err => .error ()),
         { st with currentIndex := (st.currentIndex + 1) % st.files.length },
         [st.files.getD st.currentIndex "",
          st.files.getD ((st.currentIndex + 1) % st.files.length) ""]⟩) ∧
    (load (st.files.getD st.currentIndex "") = .bad →
      ¬ 1 < st.files.length →
      getCurrentCredentials load st =
        ⟨.ok none, st, [st.files.getD st.currentIndex ""]⟩) ∧
    (load (st.files.getD st.currentIndex "") = .err →
      getCurrentCredentials load st =
        ⟨.ok none, st, [st.files.getD st.currentIndex ""]⟩) := by
  have hrot : rotateIfNeeded st = st := rotateIfNeeded_eq_self st hcc
  have hgc : getCurrentCredentials load st = getCurrentCore load st := by
    rw [getCurrentCredentials, hrot]
  refine ⟨?_, ?_, ?_, ?_⟩
  · intro c hc
    rw [hgc]
    exact getCurrentCore_eq_ok load st c hne hc
  · intro hc hlen
    rw [hgc]
    exact getCurrentCore_eq_bad load st hne hlen hc
  · intro hc hlen
    rw [hgc]
    exact getCurrentCore_eq_bad_single load st hne hlen hc
  · intro hc
    rw [hgc]
    exact getCurrentCore_eq_err load st hne hc

/-- A load oracle under which `a.json` parses but has an empty refresh token
(`Ok(None)`) while `b.json` loads fine. -/
def witLoad3 : String → LoadOutcome Nat :=
  fun f => if f = "b.json" then .ok 7 else .bad

/-- Claim C3, witness: the empty-refresh-token failure on `a.json` makes the
selector try exactly `b.json` next and return its credential. -/
theorem c3_witness :
    getCurrentCredentials witLoad3
      (sampleManager ["a.json", "b.json"] 0 5 0 3) =
    ⟨.ok (some 7),
     { sampleManager ["a.json", "b.json"] 0 5 0 3 with currentIndex := 1 },
     ["a.json", "b.json"]⟩ :=
  (c3_single_retry_semantics witLoad3
    (sampleManager ["a.json", "b.json"] 0 5 0 3)
    (by decide) (by decide)).2.1 rfl (by decide)

/-! ## Claim C2 -/

/-- The SSE line of the claim: `data: {"text":"ab"}` followed by a newline. -/
def sseLine : String := "data: \x7b\"text\":\"ab\"\x7d\n"

/-- The JSON text of that line after prefix stripping and trimming. -/
def sseObjText : String := "\x7b\"text\":\"ab\"\x7d"

/-- A one-character transport chunk never parses: the closure maps it to the
non-JSON error. -/
theorem processChunk_single_char (pj : String → Option JsonValue)
    (hfrag : ∀ s : String, s.data.length = 1 → pj s = none) (c : Char) :
    processChunk pj (String.mk [c]) = .nonJsonErr := by
  have h1 : ("data: ".data.isPrefixOf (String.mk [c]).data) = false := by
    show (['d', 'a', 't', 'a', ':', ' '].isPrefixOf [c]) = false
    simp [List.isPrefixOf]
  have hstrip : stripDataHeader (String.mk [c]) = none := by
    rw [stripDataHeader, if_neg (by simp [h1])]
  have h2 := hfrag (String.mk [c]) rfl
  simp only [processChunk, hstrip, h2]

/-- Feeding any character list one byte per chunk yields no decoded event at
all. -/
theorem decodedEventCount_singles (pj : String → Option JsonValue)
    (hfrag : ∀ s : String, s.data.length = 1 → pj s = none)
    (cs : List Char) :
    decodedEventCount
      ((cs.map fun c => String.mk [c]).map (processChunk pj)) = 0 := by
  induction cs with
  | nil => rfl
  | cons c t ih =>
    simp only [List.map_cons, decodedEventCount, List.countP_cons,
      processChunk_single_char pj hfrag c] at ih ⊢
    simpa using ih

/-- Claim C2: the per-chunk closure of `send_streaming_request` keeps no
buffer across reads, so the decoded event sequence is not invariant under
re-chunking: for any JSON parser oracle that parses the assembled object
text but fails on every single-character fragment (as `serde_json` does),
feeding the SSE line one byte per transport chunk produces zero decoded
events, while feeding it as one chunk produces exactly one. -/
theorem c2_stream_rechunking (pj : String → Option JsonValue)
    (hobj : pj sseObjText = some (.obj [("text", .str "ab")]))
    (hfrag : ∀ s : String, s.data.length = 1 → pj s = none) :
    decodedEventCount
      ((sseLine.data.map fun c => String.mk [c]).map (processChunk pj)) = 0 ∧
    decodedEventCount ([sseLine].map (processChunk pj)) = 1 := by
  refine ⟨decodedEventCount_singles pj hfrag sseLine.data, ?_⟩
  have hstrip : stripDataHeader sseLine =
      some (String.mk (sseLine.data.drop 6)) := by
    rw [stripDataHeader, if_pos (by decide)]
  have htrim : rustTrim (String.mk (sseLine.data.drop 6)) = sseObjText := by
    decide
  have hne : ¬ (sseObjText = "[DONE]") := by decide
  have hpc : processChunk pj sseLine = .event ⟨[], none⟩ := by
    simp only [processChunk, hstrip, htrim, if_neg hne, hobj]
    decide
  simp [decodedEventCount, hpc]

/-- A concrete parser oracle deciding exactly the strings of the claim. -/
def c2Oracle : String → Option JsonValue :=
  fun s =>
    if s = sseObjText then some (.obj [("text", .str "ab")]) else none

/-- Claim C2, witness: the two counts evaluated under the concrete oracle. -/
theorem c2_witness :
    decodedEventCount
      ((sseLine.data.map fun c => String.mk [c]).map
        (processChunk c2Oracle)) = 0 ∧
    decodedEventCount ([sseLine].map (processChunk c2Oracle)) = 1 :=
  c2_stream_rechunking c2Oracle (by simp [c2Oracle])
    (fun s hs => by
      by_cases h : s = sseObjText
      · subst h
        exact absurd hs (by decide)
      · simp [c2Oracle, h])

/-! ## Claim C1 -/

/-- A load oracle under which only `d.json` is loadable. -/
def cexLoad1 : String → LoadOutcome Nat :=
  fun f => if f = "d.json" then .ok 9 else .bad

/-- Claim C1, counterexample: four eligible files of which exactly one
(`d.json`) is loadable, with `max_retries = 1`.  The call attempts three
distinct files (more than `max_retries`) and still returns `None`, so
neither "never attempts more than `max_retries` distinct files" nor "when
exactly one eligible file is loadable it returns that file's credential"
holds as stated. -/
theorem c1_counterexample :
    (getCredentialsWithRetry cexLoad1
      (sampleManager ["a.json", "b.json", "c.json", "d.json"]
        0 100 0 1)).res = .ok none ∧
    (getCredentialsWithRetry cexLoad1
      (sampleManager ["a.json", "b.json", "c.json", "d.json"]
        0 100 0 1)).log = ["a.json", "b.json", "c.json"] ∧
    (sampleManager ["a.json", "b.json", "c.json", "d.json"]
      0 100 0 1).maxRetries = 1 ∧
    cexLoad1 ((sampleManager ["a.json", "b.json", "c.json", "d.json"]
      0 100 0 1).files.getD 3 "") = .ok 9 := by
  refine ⟨rfl, rfl, rfl, rfl⟩

/-- Claim C1 (amended): `get_credentials_with_retry` first tries the current
credential through `get_current_credentials` (which may itself load up to
two files); on failure it walks forward through the eligible list, wrapping
and skipping indices already tried, bounded by `max_retries` and the list
size, with one final attempt at the walk's starting index when retry budget
remains.  It loads at most `max_retries + 2` files in one call (not
`max_retries`), and when exactly one eligible file is loadable it returns
that file's credential provided `max_retries` is at least the number of
eligible files minus one. -/
theorem c1_retry_engine {β : Type} :
    (∀ (load : String → LoadOutcome β) (st : ManagerM),
      (getCredentialsWithRetry load st).log.length ≤ st.maxRetries + 2) ∧
    (∀ (load : String → LoadOutcome β) (st : ManagerM) (k : Nat) (c : β),
      st.files ≠ [] →
      st.currentIndex < st.files.length →
      st.files.length - 1 ≤ st.maxRetries →
      k < st.files.length →
      load (st.files.getD k "") = .ok c →
      (∀ j, j < st.files.length → j ≠ k →
        (load (st.files.getD j "")).isOk = false) →
      (getCredentialsWithRetry load st).res = .ok (some c)) :=
  ⟨fun load st => withRetry_log_le load st,
   fun load st k c hne hidx hmr hk hload hfail =>
     withRetry_finds_unique load st k c hne hidx hmr hk hload hfail⟩

/-- A load oracle under which only `c.json` is loadable. -/
def witLoad1 : String → LoadOutcome Nat :=
  fun f => if f = "c.json" then .ok 5 else .bad

/-- Claim C1, witness: three eligible files, exactly one loadable, and
`max_retries` equal to the list length minus one — the retry engine returns
the unique usable credential within the load bound. -/
theorem c1_witness :
    (getCredentialsWithRetry witLoad1
      (sampleManager ["a.json", "b.json", "c.json"] 0 100 0 2)).log.length ≤
      (sampleManager ["a.json", "b.json", "c.json"] 0 100 0 2).maxRetries
        + 2 ∧
    (getCredentialsWithRetry witLoad1
      (sampleManager ["a.json", "b.json", "c.json"] 0 100 0 2)).res =
      .ok (some 5) :=
  ⟨(c1_retry_engine (β := Nat)).1 witLoad1 _,
   (c1_retry_engine (β := Nat)).2 witLoad1
     (sampleManager ["a.json", "b.json", "c.json"] 0 100 0 2) 2 5
     (by decide) (by decide) (by decide) (by decide) rfl (by decide)⟩
